import Mathlib

/-
Verification of the resource-dispatch and input-validation core of the
findig repository (src/findig/resource.py and src/findig/tools/validator.py),
by a shallow embedding in Lean 4.

Python values flowing through the pipeline are embedded as `Val`,
exceptions of the dispatch pipeline as `Exc`, data models as `DModel`
(a record of the four optional capabilities read/write/delete/make),
and the validator registry as `VState`.
-/

namespace Findig

/-- Embedding of the Python values that flow through the dispatch and
validation pipelines: strings, integers, booleans, lists, string-keyed
mappings, and `None`. -/
inductive Val where
  | none
  | str (s : String)
  | int (n : Int)
  | bool (b : Bool)
  | list (l : List Val)
  | map (kvs : List (String × Val))
deriving Repr

/-- Exceptions that can arise in the dispatch pipeline of
`src/findig/resource.py`: `werkzeug.exceptions.MethodNotAllowed` (carrying
the list of supported methods), `werkzeug.exceptions.NotFound`, Python
`LookupError` (including `KeyError` from a missing model capability),
`ValueError`, and arbitrary other application exceptions. -/
inductive Exc where
  | methodNotAllowed (allow : List String)
  | notFound
  | lookupError
  | valueError
  | userExc (n : Nat)
deriving DecidableEq, Repr

/-- Embedding of a findig data model: per the data-model interface, an
object exposing an optional operation for each of the four capabilities
`read`, `write`, `delete`, `make`; presence of the capability is presence
of the operation.  Operations may raise (`Except.error`). -/
structure DModel where
  read : Option (Unit → Except Exc Val) := Option.none
  write : Option (Val → Except Exc Val) := Option.none
  delete : Option (Unit → Except Exc Val) := Option.none
  make : Option (Val → Except Exc Val) := Option.none

/-- Modelled from the spec: `findig.data_model.DataModel.compose` is not in
the source tree (only `findig/resource.py`, its caller, is).  Per the
specification, two models may be composed, the result's capability set
being the union with the second operand's capability taking precedence on
conflict. -/
def DModel.compose (m1 m2 : DModel) : DModel where
  read := m2.read.orElse (fun _ => m1.read)
  write := m2.write.orElse (fun _ => m1.write)
  delete := m2.delete.orElse (fun _ => m1.delete)
  make := m2.make.orElse (fun _ => m1.make)

/-- `Resource.get_supported_methods` (resource.py:161-179): start from
`{'GET'}`, add `'DELETE'` iff the model has `delete`, add `'PUT'` iff the
model has `write`. -/
def supportedMethodsR (m : DModel) : List String :=
  ["GET"] ++ (if m.delete.isSome then ["DELETE"] else [])
          ++ (if m.write.isSome then ["PUT"] else [])

/-- `Collection.get_supported_methods` (resource.py:269-276): the base
resource's set, plus `'POST'` iff the model has `make`. -/
def supportedMethodsC (m : DModel) : List String :=
  supportedMethodsR m ++ (if m.make.isSome then ["POST"] else [])

/-- Calling a zero-argument model capability: `model['cap']()`.  A missing
key raises `KeyError`, a `LookupError`. -/
def callCap0 : Option (Unit → Except Exc Val) → Except Exc Val
  | Option.some f => f ()
  | Option.none => .error .lookupError

/-- Calling a one-argument model capability: `model['cap'](data)`. -/
def callCap1 : Option (Val → Except Exc Val) → Val → Except Exc Val
  | Option.some f, v => f v
  | Option.none, _ => .error .lookupError

/-- The body of `Resource._handle_request_with_model` (resource.py:205-221),
parameterised over the supported-method list (computed via the object's
`get_supported_methods`, which differs between `Resource` and
`Collection`): raise `MethodNotAllowed(list(supported))` when the method
is unsupported and not `HEAD`, then dispatch `GET`/`HEAD` to `read`,
`DELETE` to `delete`, `PUT` to `write`, anything else to `ValueError`. -/
def dispatchByMethod (supported : List String) (m : DModel) (meth : String)
    (input : Val) : Except Exc Val :=
  if meth ∉ supported ∧ meth ≠ "HEAD" then
    .error (.methodNotAllowed supported)
  else if meth = "GET" ∨ meth = "HEAD" then
    callCap0 m.read
  else if meth = "DELETE" then
    callCap0 m.delete
  else if meth = "PUT" then
    callCap1 m.write input
  else
    .error .valueError

/-- `Resource._handle_request_with_model` with the supported set computed
by `Resource.get_supported_methods`. -/
def resourceHandleWithModel (m : DModel) (meth : String) (input : Val) :
    Except Exc Val :=
  dispatchByMethod (supportedMethodsR m) m meth input

/-- Wrapper-function arguments (`wrapper_args` / `url_values`): a dict of
values parsed from the URL route. -/
def Args : Type := List (String × Val)

/-- Embedding of a `findig.resource.Resource`: its name, declared model,
lazy flag, and wrapped handler.  `placeholderArgs` stands for the fake
`None`-valued argument dict that `compose_model` builds from the wrapped
function's signature when no real arguments are supplied
(resource.py:140-146). -/
structure ResourceR where
  name : String
  model : DModel
  lazy : Bool
  wrapped : Args → Except Exc Val
  placeholderArgs : Args

/-- `Resource.compose_model` (resource.py:124-159): for a lazy resource,
call the wrapped handler (with the given arguments, or the placeholder
arguments when none are given) to obtain a dataset, wrap the dataset in a
`DataSetDataModel` (embedded by the parameter `dsdmOf`, see below) and
compose the declared model with it; for a non-lazy resource with real
arguments whose model lacks `read`, compose the declared model with a
one-capability model whose `read` re-invokes the handler; otherwise return
the declared model unchanged.  Exceptions from the wrapped handler
propagate. -/
def composeModel (dsdmOf : Val → DModel) (r : ResourceR)
    (wrapperArgs : Option Args) : Except Exc DModel :=
  if r.lazy then
    match r.wrapped (wrapperArgs.getD r.placeholderArgs) with
    | .error e => .error e
    | .ok dataset => .ok (DModel.compose r.model (dsdmOf dataset))
  else
    match wrapperArgs with
    | Option.some a =>
      if r.model.read.isNone then
        .ok (DModel.compose r.model { read := Option.some (fun _ => r.wrapped a) })
      else
        .ok r.model
    | Option.none => .ok r.model

/-- Modelled from the spec: `findig.data_model.DataSetDataModel` is not in
the source tree.  Per the specification it wraps a dataset in a synthetic
model whose capabilities are derived from the dataset's own shape; the
derivation is kept as an explicit parameter `dsdmOf` of the embedding.
This definition is the trivial instantiation used for closed computations:
a dataset contributing no capabilities of its own. -/
def dsdmNone : Val → DModel := fun _ => {}

/-- Modelled from the spec: the `findig.content.ErrorHandler` collaborator
is not in the source tree.  Per the specification it is a callable taking
the raised condition and producing the response; `Resource.__init__`
(resource.py:109-113) registers `Resource._on_lookup_err` for
`LookupError` when no custom handler is supplied, and `_on_lookup_err`
(resource.py:118-119) raises `NotFound`.  Conditions with no registered
handler are re-raised. -/
def defaultErrorHandler : Exc → Except Exc Val
  | .lookupError => .error .notFound
  | e => .error e

/-- Denotation of Python's `str.upper()` as used on HTTP method names
(`request.method.upper()`, resource.py:197): per-character ASCII
uppercasing. -/
def pyUpper (s : String) : String :=
  String.mk (s.toList.map Char.toUpper)

/-- The dispatch pipeline guarded by `Resource.handle_request`'s
`try` block (resource.py:197-201): upper-case the request method, compose
the effective model from the wrapper arguments, then run
`_handle_request_with_model`. -/
def dispatchPipeline (dsdmOf : Val → DModel) (r : ResourceR) (args : Args)
    (rawMeth : String) (input : Val) : Except Exc Val :=
  match composeModel dsdmOf r (Option.some args) with
  | .error e => .error e
  | .ok m => resourceHandleWithModel m (pyUpper rawMeth) input

/-- `Resource.handle_request` (resource.py:181-203): run the dispatch
pipeline; any exception (`except BaseException`) is caught and the
error handler's result is returned. -/
def handleRequest (eh : Exc → Except Exc Val) (dsdmOf : Val → DModel)
    (r : ResourceR) (args : Args) (rawMeth : String) (input : Val) :
    Except Exc Val :=
  match dispatchPipeline dsdmOf r args rawMeth input with
  | .ok v => .ok v
  | .error e => eh e

/-- Tests whether a dispatch outcome is a raised method-not-allowed
condition. -/
def isMNA : Except Exc Val → Bool
  | .error (.methodNotAllowed _) => true
  | _ => false

/-- Hypothesis packaging: none of the model's operations, when invoked by
the dispatcher on the given input, itself raises a method-not-allowed
condition. -/
def modelNoMNA (m : DModel) (input : Val) : Prop :=
  isMNA (callCap0 m.read) = false ∧ isMNA (callCap0 m.delete) = false ∧
    isMNA (callCap1 m.write input) = false

/-
Insertion-ordered dictionaries.  Python dicts keep insertion order;
assigning to an existing key replaces the value in place, assigning a new
key appends.  `updKey` embeds one assignment `d[k] = v`, `updAll` embeds
`d.update(other)` (one assignment per item of `other`, in order).
-/

/-- Membership test `k in d` for an insertion-ordered dictionary. -/
def hasKey (l : List (String × α)) (k : String) : Bool :=
  l.any (fun p => p.1 == k)

/-- Lookup `d[k]` for an insertion-ordered dictionary (first entry with the
key; entries are unique in any dict the code builds). -/
def lookupField (l : List (String × α)) (k : String) : Option α :=
  (l.find? (fun p => p.1 == k)).map Prod.snd

/-- One dict assignment `d[k] = v`: replace in place if the key exists,
append otherwise. -/
def updKey (l : List (String × α)) (k : String) (v : α) : List (String × α) :=
  if hasKey l k then l.map (fun p => if p.1 == k then (k, v) else p)
  else l ++ [(k, v)]

/-- `d.update(other)`: assign every item of `other` in order. -/
def updAll (l m : List (String × α)) : List (String × α) :=
  m.foldl (fun acc p => updKey acc p.1 p.2) l

/-
The validator (src/findig/tools/validator.py).
-/

/-- Embedding of the Python values accepted and produced by the
validator's converter-specification handling (`Validator.__register_spec`
and `Validator.__check_item`): callables, strings, lists, the
`converter_spec` named tuple produced by parsing a string spec, the
`(compiled_regex, converter_instance)` pair produced by the preparation
phase (embedded as the regex's acceptance predicate together with the
converter's `to_python`), the boolean `False`, and other non-callable
values. -/
inductive SpecVal where
  | callable (f : Val → Except Unit Val)
  | pyStr (s : String)
  | pyList (l : List SpecVal)
  | convSpec (name : String) (args : Option String)
  | prepared (accepts : String → Bool) (toPython : String → Val)
  | pyFalse
  | otherNC (id : Nat)

/-- Tests whether a spec value is the Python boolean `False`. -/
def SpecVal.isPyFalse : SpecVal → Bool
  | .pyFalse => true
  | _ => false

/-- Character class `[a-zA-Z_]` opening a converter name in
`_converter_re` (validator.py:72-75). -/
def isIdentStart (c : Char) : Bool :=
  ('a' ≤ c ∧ c ≤ 'z') ∨ ('A' ≤ c ∧ c ≤ 'Z') ∨ c = '_'

/-- Character class `[a-zA-Z0-9_]` continuing a converter name. -/
def isIdentChar (c : Char) : Bool :=
  isIdentStart c ∨ ('0' ≤ c ∧ c ≤ '9')

/-- Denotation of `_converter_re.fullmatch` (validator.py:72-75 and 412):
the whole string must be an identifier optionally followed by a
parenthesised argument blob; the blob is everything between the first `(`
after the name and the final character, which must be `)`; `.` does not
match a newline.  Returns the `name` and `args` groups. -/
def matchConverter (s : String) : Option (String × Option String) :=
  match s.toList with
  | [] => Option.none
  | c :: rest =>
    if isIdentStart c then
      let name := c :: rest.takeWhile isIdentChar
      match rest.dropWhile isIdentChar with
      | [] => Option.some (String.mk name, Option.none)
      | '(' :: rest2 =>
        if rest2.getLast? = Option.some ')' ∧
            rest2.dropLast.all (fun ch => ch ≠ '\n') then
          Option.some (String.mk name, Option.some (String.mk rest2.dropLast))
        else Option.none
      | _ => Option.none
    else Option.none

/-- `validate_item_spec` inside `Validator.__register_spec`
(validator.py:410-428): a string is parsed against the converter grammar
(yielding a `converter_spec`, or `False` on mismatch); a list must be a
singleton and is normalised recursively; a non-callable is `False`; a
callable is kept as-is. -/
def validate_item_spec : SpecVal → SpecVal
  | .pyStr s =>
    match matchConverter s with
    | Option.some (n, a) => .convSpec n a
    | Option.none => .pyFalse
  | .pyList [x] => .pyList [validate_item_spec x]
  | .pyList _ => .pyFalse
  | .callable f => .callable f
  | _ => .pyFalse

/-- Validation-failure conditions raised by the validator:
`UnexpectedFields`, `MissingFields`, `InvalidFields` (each carrying its
complete field list, validator.py:686-709) and
`InvalidSpecificationError` (validator.py:656-657). -/
inductive VErr where
  | unexpectedFields (fields : List String)
  | missingFields (fields : List String)
  | invalidFields (fields : List String)
  | invalidSpecification
deriving DecidableEq, Repr

/-- The validator's registry state (validator.py:106-110): the three
tables `validation_specs` (keyed by resource name, with `None` as the
global sentinel), `restriction_specs` and `strip_extras`, plus the
`include_collections` flag. -/
structure VState where
  includeCollections : Bool
  validationSpecs : Option String → List (String × SpecVal)
  restrictionSpecs : String → Option (List (String × Bool))
  stripExtras : String → Option Bool

/-- A fresh validator with no registered specs
(`Validator.__init__`, validator.py:106-110). -/
def emptyValidator (inc : Bool) : VState where
  includeCollections := inc
  validationSpecs := fun _ => []
  restrictionSpecs := fun _ => Option.none
  stripExtras := fun _ => Option.none

/-- `Validator.__register_spec` (validator.py:409-439): normalise each
field's spec with `validate_item_spec`, but raise
`InvalidSpecificationError` only when the ORIGINAL item spec is the value
`False` (the code tests `item_spec is False`, not the freshly computed
`new_item_spec`); if no exception is raised, merge the normalised spec
into `validation_specs[key]`. -/
def register_spec (v : VState) (key : Option String)
    (spec : List (String × SpecVal)) : Except VErr VState :=
  if spec.any (fun p => p.2.isPyFalse) then
    .error .invalidSpecification
  else
    let newTable :=
      updAll (v.validationSpecs key)
        (spec.map (fun p => (p.1, validate_item_spec p.2)))
    .ok { v with validationSpecs := fun k =>
      if k = key then newTable else v.validationSpecs k }

/-- Denotation of `conv_field` inside `Validator.restrict`
(validator.py:228-235): `FIELD_REGEX = ^(\**)\1(\*?)` greedily matches an
even number of leading asterisks plus optionally one more; the odd extra
asterisk marks the field required, and `FIELD_REGEX.sub(r"\1", name)`
halves the matched asterisks.  So a name with `k` leading asterisks maps
to its tail prefixed by `k / 2` asterisks, required iff `k` is odd. -/
def conv_field (s : String) : String × Bool :=
  let cs := s.toList
  let k := (cs.takeWhile (fun c => c = '*')).length
  (String.mk (List.replicate (k / 2) '*' ++ cs.dropWhile (fun c => c = '*')),
    k % 2 = 1)

/-- `Validator.restrict` applied to a resource (`restrict_to`,
validator.py:237-241): convert each field name with `conv_field`, merge
the pairs into `restriction_specs[resource.name]`, and record the
`strip_extra` flag for the resource. -/
def restrictTo (v : VState) (resName : String) (fields : List String)
    (strip : Bool) : VState :=
  { v with
    restrictionSpecs := fun n =>
      if n = resName then
        Option.some (updAll ((v.restrictionSpecs resName).getD [])
          (fields.map conv_field))
      else v.restrictionSpecs n,
    stripExtras := fun n =>
      if n = resName then Option.some strip else v.stripExtras n }

/-- The per-request resource identity read from the context local
(`ctx.resource`): its name, whether it is a `Collection`, and (when it is)
the name of the collected resource. -/
structure ResInfo where
  name : String
  isCollection : Bool
  collectsName : String

/-- The restriction lookup of `Validator.__handle_restrictions`
(validator.py:500-513): take the resource's own restriction table and
strip flag; when the resource has none, inheritance is enabled and the
resource is a Collection, fall back to the collected resource's table
(defaulting to an empty allow-list) and strip flag. -/
def activeRestrictions (v : VState) (r : ResInfo) :
    Option (List (String × Bool)) × Bool :=
  let strip := (v.stripExtras r.name).getD false
  let restr := v.restrictionSpecs r.name
  if restr.isNone ∧ v.includeCollections ∧ r.isCollection then
    (Option.some ((v.restrictionSpecs r.collectsName).getD []),
      (v.stripExtras r.collectsName).getD false)
  else
    (restr, strip)

/-- The required-field check at the end of
`Validator.__handle_restrictions` (validator.py:523-527): collect the
allow-listed fields marked required that are absent from the data, and
raise `MissingFields` with the complete list if there are any. -/
def missingCheck (rs : List (String × Bool)) (d : List (String × Val)) :
    Except VErr (List (String × Val)) :=
  let missing := (rs.filter (fun p => p.2 && !(hasKey d p.1))).map Prod.fst
  if missing ≠ [] then .error (.missingFields missing) else .ok d

/-- `Validator.__handle_restrictions` (validator.py:500-529): with no
active allow-list the data passes through; otherwise the extra fields
(data fields not in the allow-list) are computed first and either deleted
in place (when the strip flag is set) or raised as `UnexpectedFields` with
the complete list; then the required-field check runs on the (possibly
stripped) data. -/
def handleRestrictions (v : VState) (r : ResInfo)
    (data : List (String × Val)) : Except VErr (List (String × Val)) :=
  match activeRestrictions v r with
  | (Option.none, _) => .ok data
  | (Option.some rs, strip) =>
    let extras := (data.map Prod.fst).filter (fun f => !(hasKey rs f))
    if extras ≠ [] ∧ strip then
      missingCheck rs (data.filter (fun p => hasKey rs p.1))
    else if extras ≠ [] then
      .error (.unexpectedFields extras)
    else
      missingCheck rs data

/-- Conversion outcomes inside `Validator.__check_item` as seen by
`Validator.validate`'s `try` (validator.py:568-575):
`InvalidSpecificationError` is re-raised, any other exception marks the
field failed. -/
inductive CErr where
  | invalidSpec
  | fieldFail
deriving DecidableEq, Repr

/-- `_ContainerWrapper.getlist` on a plain value
(validator.py:611-621, non-MultiDict branch): the value must be a Python
`Sequence` (a list, or a string, whose items are its one-character
substrings), otherwise `ValueError` is raised (surfacing as a field
failure). -/
def pyGetSeq : Val → Except CErr (List Val)
  | .list l => .ok l
  | .str s => .ok (s.toList.map (fun c => Val.str (String.mk [c])))
  | _ => .error .fieldFail

/-- `Validator.__check_item` (validator.py:470-498), expressed on the
field's value: a callable converts the value (its exceptions fail the
field); a list spec fetches the value as a sequence and converts every
item with the list's first inner spec (an empty stored list would raise
`IndexError`, failing the field); a prepared `(regex, converter)` pair
requires a string value fully matching the regex and applies the
converter; an unprepared `converter_spec` is also a tuple, but unpacking
it makes `regexp` a string and `regexp.fullmatch` raises
`AttributeError`, failing the field; any other stored value raises
`InvalidSpecificationError`. -/
def checkVal : SpecVal → Val → Except CErr Val
  | .callable f, v =>
    match f v with
    | .ok r => .ok r
    | .error _ => .error .fieldFail
  | .pyList [], _ => .error .fieldFail
  | .pyList (child :: _), v =>
    match pyGetSeq v with
    | .error e => .error e
    | .ok items =>
      match items.mapM (fun it => checkVal child it) with
      | .error e => .error e
      | .ok conv => .ok (.list conv)
  | .prepared accepts toPython, v =>
    match v with
    | .str s => if accepts s then .ok (toPython s) else .error .fieldFail
    | _ => .error .fieldFail
  | .convSpec _ _, _ => .error .fieldFail
  | .pyStr _, _ => .error .invalidSpec
  | .pyFalse, _ => .error .invalidSpec
  | .otherNC _, _ => .error .invalidSpec

/-- The per-request precedence merge at the top of `Validator.validate`
(validator.py:547-556): start from the global table, overlay the
collected resource's table when inheritance is enabled and the resource is
a Collection, then overlay the resource's own table. -/
def mergedSpec (v : VState) (r : ResInfo) : List (String × SpecVal) :=
  let s0 := updAll [] (v.validationSpecs Option.none)
  let s1 :=
    if v.includeCollections ∧ r.isCollection then
      updAll s0 (v.validationSpecs (Option.some r.collectsName))
    else s0
  updAll s1 (v.validationSpecs (Option.some r.name))

/-- The conversion loop of `Validator.validate` (validator.py:560-577):
walk the merged spec in order; a field absent from the data is skipped; a
successful conversion is written back into the data; an
`InvalidSpecificationError` from `__check_item` is re-raised; any other
conversion failure appends the field to `conversion_errs` and the loop
continues. -/
def convertFields : List (String × SpecVal) → List (String × Val) →
    List String → Except VErr (List (String × Val) × List String)
  | [], d, errs => .ok (d, errs)
  | (f, s) :: rest, d, errs =>
    match lookupField d f with
    | Option.none => convertFields rest d errs
    | Option.some v =>
      match checkVal s v with
      | .ok cv => convertFields rest (updKey d f cv) errs
      | .error .invalidSpec => .error .invalidSpecification
      | .error .fieldFail => convertFields rest d (errs ++ [f])

/-- `Validator.validate` (validator.py:531-582): merge the spec tables,
run restriction enforcement, then the conversion loop; if any field
failed conversion raise `InvalidFields` with the complete list, otherwise
return the (converted) data. -/
def validate (v : VState) (r : ResInfo) (data : List (String × Val)) :
    Except VErr (List (String × Val)) :=
  match handleRestrictions v r data with
  | .error e => .error e
  | .ok wrapped =>
    match convertFields (mergedSpec v r) wrapped [] with
    | .error e => .error e
    | .ok (d, errs) =>
      if errs ≠ [] then .error (.invalidFields errs) else .ok d

/-- Conservative well-formedness of a stored spec: conversion with it can
fail a field but never raises `InvalidSpecificationError` (true of every
spec shape that `enforce` accepts and the preparation phase produces). -/
def specNeverInvalid : SpecVal → Bool
  | .callable _ => true
  | .prepared _ _ => true
  | .convSpec _ _ => true
  | .pyList [] => true
  | .pyList (child :: _) => specNeverInvalid child
  | _ => false

/-- Tests whether an exception outcome is ok. -/
def isOkE : Except ε α → Bool
  | .ok _ => true
  | .error _ => false

/-- Tests whether an exception outcome is an error. -/
def isErrE : Except ε α → Bool
  | .error _ => true
  | .ok _ => false

/-- The fields of a merged spec whose conversion fails on the given data:
present in the data and `__check_item` raises an ordinary exception. -/
def fieldFails (w : List (String × Val)) (p : String × SpecVal) : Bool :=
  match lookupField w p.1 with
  | Option.none => false
  | Option.some v =>
    match checkVal p.2 v with
    | .error .fieldFail => true
    | _ => false

/-- The complete list of failed fields for a spec table over given data,
in spec order. -/
def failedFields (spec : List (String × SpecVal))
    (w : List (String × Val)) : List String :=
  (spec.filter (fieldFails w)).map Prod.fst

/-
Collection creation (resource.py:262-298).
-/

/-- The collection's `collects` record (resource.py:263-267): the name of
the collected (child) resource and the binding table `bindargs` mapping
child field names to URL parameter names. -/
structure CollInfo where
  childName : String
  binding : List (String × String)

/-- The in-progress response carried in `ctx.response`: the optional
status and the headers dict. -/
structure RespCtx where
  status : Option Nat
  headers : List (String × String)
deriving DecidableEq, Repr

/-- `ctx.response.setdefault('status', 201)` (resource.py:282). -/
def bumpStatus (resp : RespCtx) : RespCtx :=
  { resp with status := Option.some (resp.status.getD 201) }

/-- `dict.setdefault(key, value)` on the headers dict
(resource.py:294). -/
def setdefaultH (hs : List (String × String)) (k v : String) :
    List (String × String) :=
  if hasKey hs k then hs else hs ++ [(k, v)]

/-- The URL-argument dict comprehension of
`Collection._handle_request_with_model` (resource.py:287-288): every field
of the returned mapping, with its name translated through the binding
table when bound. -/
def translateKeys (binding : List (String × String))
    (kvs : List (String × Val)) : List (String × Val) :=
  kvs.foldl (fun acc p => updKey acc ((lookupField binding p.1).getD p.1) p.2) []

/-- Tests whether a value is mapping-shaped
(`isinstance(ret_data, Mapping)`, resource.py:285). -/
def Val.isMapV : Val → Bool
  | .map _ => true
  | _ => false

/-- `Collection._handle_request_with_model` (resource.py:278-298): a
`POST` with a `make` capability invokes `make(request.input)`; on success
the response status defaults to 201 and, when the returned value is
mapping-shaped, a URL to the created child is built from the
binding-translated fields via the external URL-build collaborator
(`build`); a `URLBuildError` is swallowed, otherwise the `Location` header
defaults to the built URL.  Any other request delegates to the base
algorithm with the Collection's supported-method set. -/
def collectionHandleWithModel
    (build : String → List (String × Val) → Except Unit String)
    (c : CollInfo) (m : DModel) (meth : String) (input : Val)
    (resp : RespCtx) : Except Exc (Val × RespCtx) :=
  match m.make with
  | Option.some mk =>
    if meth = "POST" then
      match mk input with
      | .error e => .error e
      | .ok ret =>
        let resp1 := bumpStatus resp
        match ret with
        | .map kvs =>
          match build c.childName (translateKeys c.binding kvs) with
          | .error _ => .ok (ret, resp1)
          | .ok url =>
            .ok (ret, { resp1 with
              headers := setdefaultH resp1.headers "Location" url })
        | _ => .ok (ret, resp1)
    else
      match dispatchByMethod (supportedMethodsC m) m meth input with
      | .ok v => .ok (v, resp)
      | .error e => .error e
  | Option.none =>
    match dispatchByMethod (supportedMethodsC m) m meth input with
    | .ok v => .ok (v, resp)
    | .error e => .error e

/-
Concrete fixtures used to instantiate the theorems below on explicit
inputs.
-/

/-- A resource with an empty declared model, no laziness, and a trivial
wrapped handler. -/
def rC1 : ResourceR where
  name := "c1"
  model := {}
  lazy := false
  wrapped := fun _ => .ok Val.none
  placeholderArgs := []

/-- The identity callable, `lambda v: v`. -/
def idFC3 : Val → Except Unit Val := fun v => .ok v

/-- A resource whose declared model has a `read` capability that raises
`KeyError` (a `LookupError`). -/
def rC4 : ResourceR where
  name := "c4"
  model := { read := Option.some (fun _ => .error .lookupError) }
  lazy := false
  wrapped := fun _ => .ok Val.none
  placeholderArgs := []

/-- A declared model whose `write` returns the integer 1. -/
def mC5 : DModel := { write := Option.some (fun _ => .ok (.int 1)) }

/-- A dataset-model derivation whose synthetic model's `write` returns the
integer 2, conflicting with the declared model's `write`. -/
def dsdmC5 : Val → DModel :=
  fun _ => { write := Option.some (fun _ => .ok (.int 2)) }

/-- A lazy resource declaring `mC5` whose wrapped handler returns a
dataset value. -/
def rC5 : ResourceR where
  name := "c5"
  model := mC5
  lazy := true
  wrapped := fun _ => .ok (.str "dataset")
  placeholderArgs := []

/-- Invoke the `write` capability of a composed model, to observe which
operand's `write` won the composition. -/
def writeOutcome (e : Except Exc DModel) : Except Exc Val :=
  match e with
  | .ok m => callCap1 m.write Val.none
  | .error e2 => .error e2

/-- A validator with a global spec `x=int`, a spec `x=float` on the
collected resource `C`, and a spec `x=str` on the collection `R` itself
(the converters are embedded as named converter specs so that the winner
is observable). -/
def vC6 : VState where
  includeCollections := true
  validationSpecs := fun k =>
    if k = Option.some "R" then [("x", SpecVal.convSpec "str" Option.none)]
    else if k = Option.some "C" then [("x", SpecVal.convSpec "float" Option.none)]
    else if k = Option.none then [("x", SpecVal.convSpec "int" Option.none)]
    else []
  restrictionSpecs := fun _ => Option.none
  stripExtras := fun _ => Option.none

/-- The collection `R` collecting resource `C`. -/
def rC6 : ResInfo := ⟨"R", true, "C"⟩

/-- A validator with `restrict("*id", "name", strip_extra=False)`
registered for resource `R7`. -/
def vC7 : VState := restrictTo (emptyValidator true) "R7" ["*id", "name"] false

/-- The plain resource `R7`. -/
def rC7 : ResInfo := ⟨"R7", false, ""⟩

/-- A validator with `restrict("*id", "name", strip_extra=False)`
registered for resource `R8`. -/
def vC8a : VState := restrictTo (emptyValidator true) "R8" ["*id", "name"] false

/-- A validator with `restrict("*id", "name", strip_extra=True)`
registered for resource `R8`. -/
def vC8b : VState := restrictTo (emptyValidator true) "R8" ["*id", "name"] true

/-- The plain resource `R8`. -/
def rC8 : ResInfo := ⟨"R8", false, ""⟩

/-- An `int`-like callable converter: accepts integer values and rejects
everything else. -/
def toIntC9 : Val → Except Unit Val := fun v =>
  match v with
  | .int n => .ok (.int n)
  | _ => .error ()

/-- A validator enforcing `x=toIntC9, y=toIntC9` on resource `R9`. -/
def vC9 : VState where
  includeCollections := true
  validationSpecs := fun k =>
    if k = Option.some "R9" then
      [("x", SpecVal.callable toIntC9), ("y", SpecVal.callable toIntC9)]
    else []
  restrictionSpecs := fun _ => Option.none
  stripExtras := fun _ => Option.none

/-- The plain resource `R9`. -/
def rC9 : ResInfo := ⟨"R9", false, ""⟩

/-- A `make` capability returning the mapping `{"id": 7}`. -/
def mkC10 : Val → Except Exc Val := fun _ => .ok (.map [("id", .int 7)])

/-- A model with only the `make` capability `mkC10`. -/
def mC10 : DModel := { make := Option.some mkC10 }

/-- A collection of the child resource `child` binding field `id` to URL
parameter `item_id`. -/
def cC10 : CollInfo := ⟨"child", [("id", "item_id")]⟩

/-- A URL-build collaborator that always fails with `URLBuildError`. -/
def buildFailC10 : String → List (String × Val) → Except Unit String :=
  fun _ _ => .error ()

/-- The input `{"x": "a", "y": "b", "z": 3}` whose `x` and `y` both fail
the `toIntC9` converter. -/
def dataC9 : List (String × Val) :=
  [("x", .str "a"), ("y", .str "b"), ("z", .int 3)]

/-- The extra fields of an input with respect to an allow-list: the input
fields not present in the allow-list, in input order
(validator.py:516). -/
def extrasOf (rs : List (String × Bool)) (data : List (String × Val)) :
    List String :=
  (data.map Prod.fst).filter (fun f => !(hasKey rs f))

/-- The input with its extra fields deleted in place
(validator.py:518-519). -/
def strippedOf (rs : List (String × Bool)) (data : List (String × Val)) :
    List (String × Val) :=
  data.filter (fun p => hasKey rs p.1)

/-- The allow-listed required fields absent from the data, in allow-list
order (validator.py:524-525). -/
def missingOf (rs : List (String × Bool)) (d : List (String × Val)) :
    List String :=
  (rs.filter (fun p => p.2 && !(hasKey d p.1))).map Prod.fst

/-
Helper lemmas about the supported-method sets.
-/

/-- Every member of the base supported set is one of the three statically
addable methods. -/
theorem mem_supportedR {s : String} {m : DModel} (h : s ∈ supportedMethodsR m) :
    s = "GET" ∨ s = "DELETE" ∨ s = "PUT" := by
  unfold supportedMethodsR at h
  rcases List.mem_append.mp h with h1 | h1
  · rcases List.mem_append.mp h1 with h2 | h2
    · left; simpa using h2
    · by_cases hd : m.delete.isSome
      · simp [hd] at h2; exact Or.inr (Or.inl h2)
      · simp [hd] at h2
  · by_cases hw : m.write.isSome
    · simp [hw] at h1; exact Or.inr (Or.inr h1)
    · simp [hw] at h1

/-- `GET` is always in the base supported set. -/
theorem get_mem_supportedR (m : DModel) : "GET" ∈ supportedMethodsR m := by
  simp [supportedMethodsR]

/-- `HEAD` is never in the base supported set. -/
theorem head_not_mem_supportedR (m : DModel) : "HEAD" ∉ supportedMethodsR m := by
  intro h
  rcases mem_supportedR h with h1 | h1 | h1 <;> exact absurd h1 (by decide)

/-- `DELETE` is in the base supported set iff the model has `delete`. -/
theorem delete_mem_supportedR (m : DModel) :
    "DELETE" ∈ supportedMethodsR m ↔ m.delete.isSome = true := by
  by_cases hd : m.delete.isSome <;> by_cases hw : m.write.isSome <;>
    simp [supportedMethodsR, hd, hw]

/-- `PUT` is in the base supported set iff the model has `write`. -/
theorem put_mem_supportedR (m : DModel) :
    "PUT" ∈ supportedMethodsR m ↔ m.write.isSome = true := by
  by_cases hd : m.delete.isSome <;> by_cases hw : m.write.isSome <;>
    simp [supportedMethodsR, hd, hw]

/-- Membership in the collection supported set decomposes into the base
set plus `POST` when the model has `make`. -/
theorem mem_supportedC {s : String} {m : DModel} :
    s ∈ supportedMethodsC m ↔
      (s ∈ supportedMethodsR m ∨ (s = "POST" ∧ m.make.isSome = true)) := by
  by_cases hm : m.make.isSome <;> simp [supportedMethodsC, hm]

/-- C1 (counterexample): the claim says `get_supported_methods` always
returns a set containing both `GET` and `HEAD`; for the resource `rC1`
(whose composed model is its own empty declared model) the returned set
contains `GET` but not `HEAD`. -/
theorem c1_counterexample :
    composeModel dsdmNone rC1 Option.none = .ok rC1.model
    ∧ "GET" ∈ supportedMethodsR rC1.model
    ∧ "HEAD" ∉ supportedMethodsR rC1.model := by
  refine ⟨rfl, get_mem_supportedR _, head_not_mem_supportedR _⟩

/-- C1 (amended): for every model, `Resource.get_supported_methods`
returns a set that always contains `GET` (but never `HEAD`; `HEAD`
requests are nevertheless served because the dispatcher exempts `HEAD`
from the supported-method check), contains `DELETE` iff the model has
`delete`, contains `PUT` iff the model has `write`, and for a
`Collection` additionally contains `POST` iff the model has `make`. -/
theorem c1_supported_methods (m : DModel) :
    "GET" ∈ supportedMethodsR m
    ∧ "HEAD" ∉ supportedMethodsR m
    ∧ ("DELETE" ∈ supportedMethodsR m ↔ m.delete.isSome = true)
    ∧ ("PUT" ∈ supportedMethodsR m ↔ m.write.isSome = true)
    ∧ "GET" ∈ supportedMethodsC m
    ∧ "HEAD" ∉ supportedMethodsC m
    ∧ ("DELETE" ∈ supportedMethodsC m ↔ m.delete.isSome = true)
    ∧ ("PUT" ∈ supportedMethodsC m ↔ m.write.isSome = true)
    ∧ ("POST" ∈ supportedMethodsC m ↔ m.make.isSome = true) := by
  refine ⟨get_mem_supportedR m, head_not_mem_supportedR m,
    delete_mem_supportedR m, put_mem_supportedR m, ?_, ?_, ?_, ?_, ?_⟩
  · exact mem_supportedC.mpr (Or.inl (get_mem_supportedR m))
  · intro h
    rcases mem_supportedC.mp h with h1 | h1
    · exact head_not_mem_supportedR m h1
    · exact absurd h1.1 (by decide)
  · rw [mem_supportedC]
    constructor
    · intro h
      rcases h with h1 | h1
      · exact (delete_mem_supportedR m).mp h1
      · exact absurd h1.1 (by decide)
    · intro h; exact Or.inl ((delete_mem_supportedR m).mpr h)
  · rw [mem_supportedC]
    constructor
    · intro h
      rcases h with h1 | h1
      · exact (put_mem_supportedR m).mp h1
      · exact absurd h1.1 (by decide)
    · intro h; exact Or.inl ((put_mem_supportedR m).mpr h)
  · rw [mem_supportedC]
    constructor
    · intro h
      rcases h with h1 | h1
      · rcases mem_supportedR h1 with h2 | h2 | h2 <;> exact absurd h2 (by decide)
      · exact h1.2
    · intro h; exact Or.inr ⟨rfl, h⟩

/-- If every capability the dispatcher could invoke is free of
method-not-allowed conditions and the method is supported or is `HEAD`,
the dispatcher does not produce a method-not-allowed condition. -/
theorem dispatch_no_mna_of_allowed {m : DModel} {input : Val} {meth : String}
    (h : modelNoMNA m input)
    (hmem : meth ∈ supportedMethodsR m ∨ meth = "HEAD") :
    isMNA (resourceHandleWithModel m meth input) = false := by
  obtain ⟨hr, hd, hw⟩ := h
  unfold resourceHandleWithModel dispatchByMethod
  have hcond : ¬ (meth ∉ supportedMethodsR m ∧ meth ≠ "HEAD") := by
    rcases hmem with h1 | h1
    · intro hc; exact hc.1 h1
    · intro hc; exact hc.2 h1
  rw [if_neg hcond]
  rcases hmem with h1 | h1
  · rcases mem_supportedR h1 with h2 | h2 | h2 <;> subst h2 <;>
      simp [hr, hd, hw]
  · subst h1; simp [hr]

/-- C2: the dispatcher raises a method-not-allowed condition carrying the
supported-method list exactly when the case-normalized request method is
neither in the supported set nor `HEAD`; in particular a `PUT` against a
model lacking `write` raises it, and a `HEAD` request never does
(provided the model's own capabilities do not raise method-not-allowed
conditions themselves). -/
theorem c2_method_not_allowed (m : DModel) (rawMeth : String) (input : Val)
    (h : modelNoMNA m input) :
    (isMNA (resourceHandleWithModel m (pyUpper rawMeth) input) = true ↔
      (pyUpper rawMeth ∉ supportedMethodsR m ∧ pyUpper rawMeth ≠ "HEAD"))
    ∧ (pyUpper rawMeth ∉ supportedMethodsR m → pyUpper rawMeth ≠ "HEAD" →
        resourceHandleWithModel m (pyUpper rawMeth) input =
          .error (.methodNotAllowed (supportedMethodsR m)))
    ∧ (m.write.isNone = true →
        resourceHandleWithModel m "PUT" input =
          .error (.methodNotAllowed (supportedMethodsR m)))
    ∧ isMNA (resourceHandleWithModel m "HEAD" input) = false := by
  have hMNA : ∀ meth : String, meth ∉ supportedMethodsR m → meth ≠ "HEAD" →
      resourceHandleWithModel m meth input =
        .error (.methodNotAllowed (supportedMethodsR m)) := by
    intro meth h1 h2
    unfold resourceHandleWithModel dispatchByMethod
    rw [if_pos ⟨h1, h2⟩]
  refine ⟨⟨?_, ?_⟩, hMNA _, ?_, dispatch_no_mna_of_allowed h (Or.inr rfl)⟩
  · intro ht
    by_contra hA
    have hor : pyUpper rawMeth ∈ supportedMethodsR m ∨ pyUpper rawMeth = "HEAD" := by
      by_contra hB
      push_neg at hB
      exact hA ⟨hB.1, hB.2⟩
    have hf := dispatch_no_mna_of_allowed h hor
    rw [ht] at hf
    exact Bool.noConfusion hf
  · intro hA
    rw [hMNA _ hA.1 hA.2]
    rfl
  · intro hwn
    have hnp : "PUT" ∉ supportedMethodsR m := by
      rw [put_mem_supportedR]
      simp [Option.isNone_iff_eq_none.mp hwn]
    exact hMNA "PUT" hnp (by decide)

/-- C2 (witness): instantiating the theorem on the empty model and a `PUT`
request. -/
theorem c2_witness :
    modelNoMNA ({} : DModel) Val.none
    ∧ resourceHandleWithModel ({} : DModel) "PUT" Val.none =
        .error (.methodNotAllowed ["GET"]) :=
  ⟨⟨rfl, rfl, rfl⟩,
    (c2_method_not_allowed ({} : DModel) "PUT" Val.none ⟨rfl, rfl, rfl⟩).2.2.1 rfl⟩

/-- C3: evaluation of `Validator.__register_spec` at a malformed spec (a
list of length two, as in `enforce_all(x=[int, int])`): registration
returns without raising and stores the boolean `False` in the validation
table, because the code tests `item_spec is False` (the original
argument) instead of the normalised `new_item_spec`; the stored `False`
then raises `InvalidSpecificationError` at request time when
`__check_item` reaches it — the opposite of the claimed fail-fast
behavior. -/
theorem c3_register_spec_stores_malformed :
    (match register_spec (emptyValidator true) Option.none
        [("x", SpecVal.pyList [SpecVal.callable idFC3, SpecVal.callable idFC3])] with
      | .ok v2 => (lookupField (v2.validationSpecs Option.none) "x").map SpecVal.isPyFalse
      | .error _ => Option.none) = Option.some true
    ∧ checkVal SpecVal.pyFalse (Val.str "1") = .error .invalidSpec :=
  ⟨rfl, rfl⟩

/-- C4: every exception of the dispatch pipeline (model composition,
supported-method check, or a model capability call) is caught by
`Resource.handle_request` and the error handler's result is returned —
the request outcome is exactly the error handler's outcome, and a
successful pipeline outcome passes through unchanged; with the default
error handler installed by `Resource.__init__`, a `LookupError` from the
pipeline is translated to a not-found condition. -/
theorem c4_exceptions_caught (eh : Exc → Except Exc Val) (dsdmOf : Val → DModel)
    (r : ResourceR) (args : Args) (rawMeth : String) (input : Val)
    (e : Exc) (v : Val) :
    (dispatchPipeline dsdmOf r args rawMeth input = .error e →
      handleRequest eh dsdmOf r args rawMeth input = eh e)
    ∧ (dispatchPipeline dsdmOf r args rawMeth input = .ok v →
      handleRequest eh dsdmOf r args rawMeth input = .ok v)
    ∧ (dispatchPipeline dsdmOf r args rawMeth input = .error .lookupError →
      handleRequest defaultErrorHandler dsdmOf r args rawMeth input =
        .error .notFound) := by
  refine ⟨?_, ?_, ?_⟩ <;> intro h <;> simp [handleRequest, h, defaultErrorHandler]

/-- C4 (witness): a model whose `read` raises a `LookupError`; the `GET`
dispatch fails with it and `handle_request` with the default error
handler yields not-found. -/
theorem c4_witness :
    dispatchPipeline dsdmNone rC4 [] "GET" Val.none = .error .lookupError
    ∧ handleRequest defaultErrorHandler dsdmNone rC4 [] "GET" Val.none =
        .error .notFound :=
  ⟨rfl,
    (c4_exceptions_caught defaultErrorHandler dsdmNone rC4 [] "GET" Val.none
      .lookupError Val.none).2.2 rfl⟩

/-- When the first option is present, `orElse` keeps it. -/
theorem orElse_of_isSome {o1 o2 : Option β} (h : o1.isSome = true) :
    (o1.orElse fun _ => o2) = o1 := by
  cases o1
  · exact absurd h (by simp)
  · rfl

/-- When the first option is absent, `orElse` falls back to the second. -/
theorem orElse_of_isNone {o1 o2 : Option β} (h : o1.isNone = true) :
    (o1.orElse fun _ => o2) = o2 := by
  cases o1
  · rfl
  · exact absurd h (by simp)

/-- C5 (counterexample): the claim says the declared model's capabilities
win on conflict, given that composition lets the second operand win; but
`compose_model` computes `self.model.compose(dsdm)` with the synthetic
dataset model as the second operand, so on the lazy resource `rC5`
(declared `write` returning 1, synthetic `write` returning 2) the
composed model's `write` is the synthetic one, returning 2 rather than
1. -/
theorem c5_counterexample :
    writeOutcome (composeModel dsdmC5 rC5 (Option.some [])) = .ok (.int 2)
    ∧ (Except.ok (Val.int 2) : Except Exc Val) ≠ .ok (.int 1) :=
  ⟨rfl, by simp⟩

/-- C5 (amended): for every lazy resource, `compose_model` invokes the
wrapped handler to obtain a dataset, wraps it in a synthetic dataset
model, and returns `self.model.compose(dsdm)`; since composition gives
the second operand precedence, the synthetic dataset model's capabilities
win on conflict, and the declared model's capabilities apply only where
the synthetic model lacks them. -/
theorem c5_compose_model_lazy (dsdmOf : Val → DModel) (r : ResourceR)
    (a : Args) (ds : Val) (hl : r.lazy = true) (hw : r.wrapped a = .ok ds) :
    composeModel dsdmOf r (Option.some a) =
      .ok (DModel.compose r.model (dsdmOf ds))
    ∧ ((dsdmOf ds).read.isSome = true →
        (DModel.compose r.model (dsdmOf ds)).read = (dsdmOf ds).read)
    ∧ ((dsdmOf ds).read.isNone = true →
        (DModel.compose r.model (dsdmOf ds)).read = r.model.read)
    ∧ ((dsdmOf ds).write.isSome = true →
        (DModel.compose r.model (dsdmOf ds)).write = (dsdmOf ds).write)
    ∧ ((dsdmOf ds).write.isNone = true →
        (DModel.compose r.model (dsdmOf ds)).write = r.model.write)
    ∧ ((dsdmOf ds).delete.isSome = true →
        (DModel.compose r.model (dsdmOf ds)).delete = (dsdmOf ds).delete)
    ∧ ((dsdmOf ds).delete.isNone = true →
        (DModel.compose r.model (dsdmOf ds)).delete = r.model.delete)
    ∧ ((dsdmOf ds).make.isSome = true →
        (DModel.compose r.model (dsdmOf ds)).make = (dsdmOf ds).make)
    ∧ ((dsdmOf ds).make.isNone = true →
        (DModel.compose r.model (dsdmOf ds)).make = r.model.make) := by
  refine ⟨by simp [composeModel, hl, hw], ?_, ?_, ?_, ?_, ?_, ?_, ?_, ?_⟩ <;>
    intro hx <;> simp only [DModel.compose] <;>
    first
      | exact orElse_of_isSome hx
      | exact orElse_of_isNone hx

/-- C5 (witness): instantiating the amended theorem on `rC5`. -/
theorem c5_witness :
    rC5.lazy = true
    ∧ rC5.wrapped [] = .ok (.str "dataset")
    ∧ composeModel dsdmC5 rC5 (Option.some []) =
        .ok (DModel.compose rC5.model (dsdmC5 (.str "dataset"))) :=
  ⟨rfl, rfl, (c5_compose_model_lazy dsdmC5 rC5 [] (.str "dataset") rfl rfl).1⟩

/-- C10: for a `POST` to a Collection whose model has `make`, the
dispatcher invokes `make(inputData)` and propagates its exceptions; on
success the response status defaults to 201, and when the returned value
is mapping-shaped a URL to the created child is built from the
binding-translated field names — a URL-build failure is swallowed and the
request still succeeds with the headers untouched, while a successful
build sets the `Location` header by default. -/
theorem c10_collection_post
    (build : String → List (String × Val) → Except Unit String)
    (c : CollInfo) (m : DModel) (mk : Val → Except Exc Val) (input : Val)
    (resp : RespCtx) (ret : Val) (kvs : List (String × Val)) (url : String)
    (e : Exc) (hmk : m.make = Option.some mk) :
    (mk input = .error e →
      collectionHandleWithModel build c m "POST" input resp = .error e)
    ∧ (mk input = .ok ret → ret.isMapV = false →
      collectionHandleWithModel build c m "POST" input resp =
        .ok (ret, bumpStatus resp))
    ∧ (mk input = .ok (.map kvs) →
      build c.childName (translateKeys c.binding kvs) = .error () →
      collectionHandleWithModel build c m "POST" input resp =
        .ok (.map kvs, bumpStatus resp))
    ∧ (mk input = .ok (.map kvs) →
      build c.childName (translateKeys c.binding kvs) = .ok url →
      collectionHandleWithModel build c m "POST" input resp =
        .ok (.map kvs, { bumpStatus resp with
          headers := setdefaultH (bumpStatus resp).headers "Location" url })) := by
  refine ⟨?_, ?_, ?_, ?_⟩
  · intro h; simp [collectionHandleWithModel, hmk, h]
  · intro h hnm
    cases ret <;> simp [Val.isMapV] at hnm <;>
      simp [collectionHandleWithModel, hmk, h]
  · intro h hb; simp [collectionHandleWithModel, hmk, h, hb]
  · intro h hb; simp [collectionHandleWithModel, hmk, h, hb]

/-- C10 (witness): a `make` returning `{"id": 7}` with a failing URL
builder: status defaults to 201 and the request succeeds without a
`Location` header. -/
theorem c10_witness :
    mC10.make = Option.some mkC10
    ∧ mkC10 Val.none = .ok (.map [("id", .int 7)])
    ∧ buildFailC10 "child" (translateKeys cC10.binding [("id", Val.int 7)]) =
        .error ()
    ∧ collectionHandleWithModel buildFailC10 cC10 mC10 "POST" Val.none
        ⟨Option.none, []⟩ = .ok (.map [("id", .int 7)], ⟨Option.some 201, []⟩) :=
  ⟨rfl, rfl, rfl,
    (c10_collection_post buildFailC10 cC10 mC10 mkC10 Val.none
      ⟨Option.none, []⟩ (.map [("id", Val.int 7)]) [("id", Val.int 7)] ""
      Exc.notFound rfl).2.2.1 rfl rfl⟩

/-
Lemmas about insertion-ordered dictionaries.
-/

/-- Lookup in a cons dictionary. -/
theorem lookupField_cons {a : String × α} {l : List (String × α)} {k : String} :
    lookupField (a :: l) k =
      if a.1 = k then Option.some a.2 else lookupField l k := by
  by_cases h : a.1 = k
  · simp [lookupField, h]
  · simp [lookupField, h]

/-- A key is in a dictionary iff it is among the mapped-out keys. -/
theorem hasKey_iff_mem_keys {l : List (String × α)} {k : String} :
    hasKey l k = true ↔ k ∈ l.map Prod.fst := by
  simp [hasKey, List.any_eq_true, List.mem_map]

/-- Lookup misses exactly when the key is absent. -/
theorem lookupField_eq_none_iff {l : List (String × α)} {k : String} :
    lookupField l k = Option.none ↔ hasKey l k = false := by
  simp [lookupField, hasKey, List.find?_eq_none, List.any_eq_false]

/-- Lookup of a key that is not among the dictionary's keys. -/
theorem lookupField_eq_none_of_not_mem {l : List (String × α)} {k : String}
    (h : k ∉ l.map Prod.fst) : lookupField l k = Option.none := by
  rw [lookupField_eq_none_iff]
  by_contra hcon
  simp only [Bool.not_eq_false] at hcon
  exact h (hasKey_iff_mem_keys.mp hcon)

/-- In-place replacement: looking up the assigned key after mapping the
replacement over a dictionary that contains it. -/
theorem lookupField_mapUpd_self {l : List (String × α)} {k : String} {v : α}
    (h : hasKey l k = true) :
    lookupField (l.map (fun p => if p.1 == k then (k, v) else p)) k =
      Option.some v := by
  induction l with
  | nil => simp [hasKey] at h
  | cons a l ih =>
    by_cases ha : a.1 = k
    · simp [ha, lookupField_cons]
    · have hl : hasKey l k = true := by
        simp [hasKey, List.any_eq_true] at h ⊢
        rcases h with h1 | h1
        · exact absurd h1 ha
        · exact h1
      have hrec := ih hl
      simp [ha, lookupField_cons]
      simpa using hrec

/-- In-place replacement does not disturb lookups of other keys. -/
theorem lookupField_mapUpd_ne {l : List (String × α)} {k k2 : String} {v : α}
    (h : k2 ≠ k) :
    lookupField (l.map (fun p => if p.1 == k then (k, v) else p)) k2 =
      lookupField l k2 := by
  induction l with
  | nil => rfl
  | cons a l ih =>
    have hrec := ih
    by_cases ha : a.1 = k
    · have hk2 : ¬ (k = k2) := fun he => h he.symm
      have ha2 : ¬ (a.1 = k2) := by rw [ha]; exact hk2
      simp [ha, lookupField_cons, hk2, ha2]
      simpa using hrec
    · by_cases hb : a.1 = k2
      · simp [ha, lookupField_cons, hb, h]
      · simp [ha, lookupField_cons, hb]
        simpa using hrec

/-- One dict assignment: looking up the assigned key yields the assigned
value. -/
theorem lookupField_updKey_self {l : List (String × α)} {k : String} {v : α} :
    lookupField (updKey l k v) k = Option.some v := by
  unfold updKey
  by_cases h : hasKey l k
  · rw [if_pos h]; exact lookupField_mapUpd_self h
  · rw [if_neg h]
    unfold lookupField
    rw [List.find?_append]
    have hnone : List.find? (fun p => p.1 == k) l = Option.none := by
      have h2 : hasKey l k = false := by
        simp only [Bool.not_eq_true] at h; exact h
      rw [List.find?_eq_none]
      intro p hp
      simp only [beq_iff_eq]
      intro he
      have hk : hasKey l k = true :=
        hasKey_iff_mem_keys.mpr (List.mem_map.mpr ⟨p, hp, he⟩)
      rw [h2] at hk
      exact Bool.noConfusion hk
    rw [hnone]
    simp [List.find?]

/-- One dict assignment does not disturb lookups of other keys. -/
theorem lookupField_updKey_ne {l : List (String × α)} {k k2 : String} {v : α}
    (h : k2 ≠ k) : lookupField (updKey l k v) k2 = lookupField l k2 := by
  unfold updKey
  by_cases hh : hasKey l k
  · rw [if_pos hh]; exact lookupField_mapUpd_ne h
  · rw [if_neg hh]
    unfold lookupField
    rw [List.find?_append]
    have hnone : List.find? (fun p => p.1 == k2) [(k, v)] = Option.none := by
      have hne : (k == k2) = false :=
        beq_eq_false_iff_ne.mpr (fun he => h he.symm)
      simp [List.find?, hne]
    rw [hnone, Option.or_none]

/-- `d.update(other)` looks up through `other` first (when `other` has
unique keys), falling back to `d`. -/
theorem lookupField_updAll : ∀ (m l : List (String × α)) (k : String),
    (m.map Prod.fst).Nodup →
    lookupField (updAll l m) k = (lookupField m k).or (lookupField l k) := by
  intro m
  induction m with
  | nil => intro l k _; simp [updAll, lookupField]
  | cons a m ih =>
    intro l k hm
    rw [List.map_cons] at hm
    have hm0 := List.nodup_cons.mp hm
    show lookupField (updAll (updKey l a.1 a.2) m) k = _
    rw [ih (updKey l a.1 a.2) k hm0.2]
    by_cases hk : k = a.1
    · subst hk
      rw [lookupField_eq_none_of_not_mem hm0.1]
      rw [lookupField_updKey_self]
      rw [lookupField_cons, if_pos rfl]
      simp [Option.or]
    · rw [lookupField_updKey_ne hk]
      rw [lookupField_cons, if_neg (fun he => hk he.symm)]

/-- C6: the effective converter spec for a field is resolved by layered
override — `Validator.validate` starts from the global table, overlays
the collected resource's table (when inheritance is enabled and the
resource is a Collection), and overlays the resource's own table with
highest precedence: the merged lookup is the resource-specific entry,
else the collection-inherited entry, else the global entry. -/
theorem c6_precedence (v : VState) (r : ResInfo) (f : String)
    (hinc : v.includeCollections = true) (hcol : r.isCollection = true)
    (hg : ((v.validationSpecs Option.none).map Prod.fst).Nodup)
    (hc : ((v.validationSpecs (Option.some r.collectsName)).map Prod.fst).Nodup)
    (ho : ((v.validationSpecs (Option.some r.name)).map Prod.fst).Nodup) :
    lookupField (mergedSpec v r) f =
      ((lookupField (v.validationSpecs (Option.some r.name)) f).or
        ((lookupField (v.validationSpecs (Option.some r.collectsName)) f).or
          (lookupField (v.validationSpecs Option.none) f))) := by
  have hms : mergedSpec v r =
      updAll (updAll (updAll [] (v.validationSpecs Option.none))
        (v.validationSpecs (Option.some r.collectsName)))
        (v.validationSpecs (Option.some r.name)) := by
    simp [mergedSpec, hinc, hcol]
  rw [hms]
  rw [lookupField_updAll _ _ _ ho]
  rw [lookupField_updAll _ _ _ hc]
  rw [lookupField_updAll _ _ _ hg]
  have hnil : lookupField ([] : List (String × SpecVal)) f = Option.none := rfl
  rw [hnil, Option.or_none]

/-- C6 (witness): a global spec `x=int`, a collection-inherited spec
`x=float`, and a resource-specific spec `x=str` on the same field resolve
to the resource-specific `str`. -/
theorem c6_witness :
    vC6.includeCollections = true ∧ rC6.isCollection = true
    ∧ ((vC6.validationSpecs Option.none).map Prod.fst).Nodup
    ∧ ((vC6.validationSpecs (Option.some rC6.collectsName)).map Prod.fst).Nodup
    ∧ ((vC6.validationSpecs (Option.some rC6.name)).map Prod.fst).Nodup
    ∧ lookupField (mergedSpec vC6 rC6) "x" =
        Option.some (SpecVal.convSpec "str" Option.none) := by
  refine ⟨rfl, rfl, by decide, by decide, by decide, ?_⟩
  exact (c6_precedence vC6 rC6 "x" rfl rfl (by decide) (by decide)
    (by decide)).trans rfl

/-- Membership in a cons dictionary. -/
theorem hasKey_cons {a : String × α} {l : List (String × α)} {k : String} :
    hasKey (a :: l) k = ((a.1 == k) || hasKey l k) := by
  simp [hasKey]

/-- Stripping the extra fields does not change membership of allow-listed
keys. -/
theorem hasKey_stripped {rs : List (String × Bool)}
    {data : List (String × Val)} {f : String} (hf : hasKey rs f = true) :
    hasKey (strippedOf rs data) f = hasKey data f := by
  induction data with
  | nil => rfl
  | cons a d ih =>
    by_cases hp : hasKey rs a.1
    · simp only [strippedOf, List.filter_cons, hp, if_pos]
      rw [hasKey_cons, hasKey_cons]
      show ((a.1 == f) || hasKey (strippedOf rs d) f) = _
      rw [ih]
    · have hne : (a.1 == f) = false := by
        rw [beq_eq_false_iff_ne]
        intro he
        rw [he] at hp
        exact hp hf
      simp only [strippedOf, List.filter_cons]
      rw [if_neg (by simpa using hp)]
      rw [hasKey_cons, hne]
      show hasKey (strippedOf rs d) f = _
      rw [ih]
      simp

/-- The missing-required-fields list is unchanged by stripping the extra
fields: the stripped fields are exactly those outside the allow-list. -/
theorem missingOf_stripped {rs : List (String × Bool)}
    {data : List (String × Val)} :
    missingOf rs (strippedOf rs data) = missingOf rs data := by
  unfold missingOf
  congr 1
  apply List.filter_congr
  intro p hp
  by_cases hreq : p.2
  · have hkey : hasKey rs p.1 = true :=
      hasKey_iff_mem_keys.mpr (List.mem_map.mpr ⟨p, hp, rfl⟩)
    rw [hasKey_stripped hkey]
  · simp [hreq]

/-- C7: for a resource with an active allow-list, restriction enforcement
runs before conversion; the extra fields (input fields outside the
allow-list) are computed first and, when present, are stripped in place
(when the strip flag is set) or raised as a fully-enumerated
unexpected-fields failure; then the allow-listed required fields absent
from the input are computed and, when present, raised as a
fully-enumerated missing-fields failure. -/
theorem c7_restriction_enforcement (v : VState) (r : ResInfo)
    (data : List (String × Val)) (rs : List (String × Bool)) (strip : Bool)
    (hact : activeRestrictions v r = (Option.some rs, strip)) :
    (extrasOf rs data ≠ [] → strip = false →
      handleRestrictions v r data = .error (.unexpectedFields (extrasOf rs data)))
    ∧ (extrasOf rs data ≠ [] → strip = true → missingOf rs data = [] →
      handleRestrictions v r data = .ok (strippedOf rs data))
    ∧ (extrasOf rs data ≠ [] → strip = true → missingOf rs data ≠ [] →
      handleRestrictions v r data = .error (.missingFields (missingOf rs data)))
    ∧ (extrasOf rs data = [] → missingOf rs data = [] →
      handleRestrictions v r data = .ok data)
    ∧ (extrasOf rs data = [] → missingOf rs data ≠ [] →
      handleRestrictions v r data = .error (.missingFields (missingOf rs data)))
    ∧ (isErrE (handleRestrictions v r data) = true →
      validate v r data = handleRestrictions v r data) := by
  have hun : handleRestrictions v r data =
      (if extrasOf rs data ≠ [] ∧ strip then
        missingCheck rs (strippedOf rs data)
      else if extrasOf rs data ≠ [] then
        .error (.unexpectedFields (extrasOf rs data))
      else missingCheck rs data) := by
    unfold handleRestrictions
    rw [hact]
    rfl
  have hmc : missingCheck rs (strippedOf rs data) =
      (if missingOf rs data ≠ [] then
        Except.error (VErr.missingFields (missingOf rs data))
      else .ok (strippedOf rs data)) := by
    show (if missingOf rs (strippedOf rs data) ≠ [] then
        Except.error (VErr.missingFields (missingOf rs (strippedOf rs data)))
      else .ok (strippedOf rs data)) = _
    rw [missingOf_stripped]
  have hmc2 : missingCheck rs data =
      (if missingOf rs data ≠ [] then
        Except.error (VErr.missingFields (missingOf rs data))
      else .ok data) := rfl
  refine ⟨?_, ?_, ?_, ?_, ?_, ?_⟩
  · intro hne hs; subst hs
    rw [hun, if_neg (by simp), if_pos hne]
  · intro hne hs hm; subst hs
    rw [hun, if_pos ⟨hne, rfl⟩, hmc, if_neg (by simp [hm])]
  · intro hne hs hm; subst hs
    rw [hun, if_pos ⟨hne, rfl⟩, hmc, if_pos hm]
  · intro hex hm
    rw [hun, if_neg (by simp [hex]), if_neg (by simp [hex]), hmc2,
      if_neg (by simp [hm])]
  · intro hex hm
    rw [hun, if_neg (by simp [hex]), if_neg (by simp [hex]), hmc2, if_pos hm]
  · intro herr
    cases hh : handleRestrictions v r data with
    | ok w => rw [hh] at herr; simp [isErrE] at herr
    | error e =>
      unfold validate
      rw [hh]

/-- C7 (witness): `restrict("*id", "name", strip_extra=False)` with input
`{"id": "1", "extra": "y"}`: the extras check fires and raises
unexpected-fields for `extra`. -/
theorem c7_witness :
    activeRestrictions vC7 rC7 = (Option.some [("id", true), ("name", false)], false)
    ∧ extrasOf [("id", true), ("name", false)]
        [("id", Val.str "1"), ("extra", Val.str "y")] ≠ []
    ∧ handleRestrictions vC7 rC7 [("id", Val.str "1"), ("extra", Val.str "y")] =
        .error (.unexpectedFields ["extra"]) := by
  refine ⟨rfl, by decide, ?_⟩
  exact (c7_restriction_enforcement vC7 rC7
    [("id", Val.str "1"), ("extra", Val.str "y")]
    [("id", true), ("name", false)] false rfl).1 (by decide) rfl

/-- C8 (counterexample): the claim says that after
`restrict("*id", "name", strip_extra=False)` the input
`{"id": "1", "extra": "y"}` raises missing-fields for `name`; validating
it actually raises unexpected-fields for `extra`, because extra fields
are checked before missing ones and `name` (registered without an
asterisk) is not required. -/
theorem c8_counterexample :
    validate vC8a rC8 [("id", Val.str "1"), ("extra", Val.str "y")] =
      .error (.unexpectedFields ["extra"])
    ∧ VErr.unexpectedFields ["extra"] ≠ VErr.missingFields ["name"] :=
  ⟨rfl, by decide⟩

/-- C8 (amended): after `restrict("*id", "name", strip_extra=False)`,
validating `{"id": "1", "extra": "y"}` raises unexpected-fields for
`extra` (the extras check runs before the missing check, and `name` is
not marked required, so missing-fields for `name` is never raised);
validating `{"id": "1", "name": "a", "extra": "y"}` raises
unexpected-fields for `extra`; with `strip_extra=True` that input
validates successfully with `extra` omitted from the output; and an input
actually missing the required `id` (with no extras) raises missing-fields
for `id`. -/
theorem c8_restrict_scenarios :
    validate vC8a rC8 [("id", Val.str "1"), ("extra", Val.str "y")] =
      .error (.unexpectedFields ["extra"])
    ∧ validate vC8a rC8
        [("id", Val.str "1"), ("name", Val.str "a"), ("extra", Val.str "y")] =
      .error (.unexpectedFields ["extra"])
    ∧ validate vC8b rC8
        [("id", Val.str "1"), ("name", Val.str "a"), ("extra", Val.str "y")] =
      .ok [("id", Val.str "1"), ("name", Val.str "a")]
    ∧ validate vC8a rC8 [("name", Val.str "a")] =
      .error (.missingFields ["id"]) :=
  ⟨rfl, rfl, rfl, rfl⟩

/-- Binding a successful `Except` computation. -/
theorem exceptBind_ok {ε α β : Type} (a : α) (f : α → Except ε β) :
    (Except.ok a >>= f) = f a := rfl

/-- Binding a failed `Except` computation. -/
theorem exceptBind_error {ε α β : Type} (e : ε) (f : α → Except ε β) :
    ((Except.error e : Except ε α) >>= f) = Except.error e := rfl

/-- The sequence adapter can fail a field but never raises
`InvalidSpecificationError`. -/
theorem pyGetSeq_ne_invalid (v : Val) :
    pyGetSeq v ≠ Except.error CErr.invalidSpec := by
  cases v <;> simp [pyGetSeq]

/-- Elementwise conversion with a child spec that never raises
`InvalidSpecificationError` never raises it either. -/
theorem mapM_checkVal_ne_invalid {child : SpecVal}
    (h : ∀ v2, checkVal child v2 ≠ Except.error CErr.invalidSpec) :
    ∀ items : List Val,
      items.mapM (fun it => checkVal child it) ≠
        Except.error CErr.invalidSpec := by
  intro items
  induction items with
  | nil =>
    show ¬ ([] : List Val).mapM (fun it => checkVal child it) =
      Except.error CErr.invalidSpec
    rw [List.mapM_nil]
    exact fun hcon => nomatch hcon
  | cons x xs ih =>
    show ¬ (x :: xs).mapM (fun it => checkVal child it) =
      Except.error CErr.invalidSpec
    rw [List.mapM_cons]
    cases hx : checkVal child x with
    | error e =>
      cases e with
      | invalidSpec => exact absurd hx (h x)
      | fieldFail => rw [exceptBind_error]; exact fun hcon => nomatch hcon
    | ok y =>
      rw [exceptBind_ok]
      cases hxs : xs.mapM (fun it => checkVal child it) with
      | error e2 =>
        cases e2 with
        | invalidSpec => exact absurd hxs ih
        | fieldFail => rw [exceptBind_error]; exact fun hcon => nomatch hcon
      | ok ys => rw [exceptBind_ok]; exact fun hcon => nomatch hcon

/-- A stored spec accepted by registration or produced by preparation can
fail a field but never raises `InvalidSpecificationError` during
conversion. -/
theorem checkVal_ne_invalid : (s : SpecVal) → specNeverInvalid s = true →
    ∀ v2, checkVal s v2 ≠ Except.error CErr.invalidSpec
  | .callable f, _, v2 => by
    unfold checkVal
    cases f v2 <;> simp
  | .prepared a t, _, v2 => by
    cases v2 <;> simp [checkVal] <;> split <;> simp
  | .convSpec n a, _, v2 => by simp [checkVal]
  | .pyStr s2, hs, v2 => by simp [specNeverInvalid] at hs
  | .pyFalse, hs, v2 => by simp [specNeverInvalid] at hs
  | .otherNC i, hs, v2 => by simp [specNeverInvalid] at hs
  | .pyList [], _, v2 => by simp [checkVal]
  | .pyList (child :: rest), hs, v2 => by
    have hchild : specNeverInvalid child = true := by
      simpa [specNeverInvalid] using hs
    have ih := checkVal_ne_invalid child hchild
    show ¬ (match pyGetSeq v2 with
      | Except.error e => Except.error e
      | Except.ok items =>
        match items.mapM (fun it => checkVal child it) with
        | Except.error e => Except.error e
        | Except.ok conv => Except.ok (Val.list conv)) =
      Except.error CErr.invalidSpec
    cases hg : pyGetSeq v2 with
    | error e =>
      cases e with
      | invalidSpec => exact absurd hg (pyGetSeq_ne_invalid v2)
      | fieldFail => exact fun hcon => nomatch hcon
    | ok items =>
      change ¬ (match items.mapM (fun it => checkVal child it) with
        | Except.error e => Except.error e
        | Except.ok conv => Except.ok (Val.list conv)) =
        Except.error CErr.invalidSpec
      cases hm2 : items.mapM (fun it => checkVal child it) with
      | error e2 =>
        cases e2 with
        | invalidSpec => exact absurd hm2 (mapM_checkVal_ne_invalid ih items)
        | fieldFail =>
          change ¬ Except.error CErr.fieldFail = Except.error CErr.invalidSpec
          intro hcon
          injection hcon with h3
          exact CErr.noConfusion h3
      | ok conv =>
        change ¬ Except.ok (Val.list conv) = Except.error CErr.invalidSpec
        intro hcon
        exact Except.noConfusion hcon

/-- One dict assignment preserves key uniqueness. -/
theorem updKey_keys_nodup {l : List (String × α)}
    (h : (l.map Prod.fst).Nodup) (k : String) (v : α) :
    ((updKey l k v).map Prod.fst).Nodup := by
  unfold updKey
  by_cases hk : hasKey l k
  · rw [if_pos hk]
    have hmap : (l.map (fun p => if p.1 == k then (k, v) else p)).map Prod.fst =
        l.map Prod.fst := by
      rw [List.map_map]
      apply List.map_congr_left
      intro p _
      by_cases hp : p.1 = k
      · simp [hp]
      · simp [hp]
    rw [hmap]
    exact h
  · rw [if_neg hk]
    rw [List.map_append]
    refine List.Nodup.append h (List.nodup_singleton k) ?_
    intro a ha hb
    simp only [List.map_cons, List.map_nil, List.mem_singleton] at hb
    subst hb
    exact hk (hasKey_iff_mem_keys.mpr ha)

/-- `d.update(other)` preserves key uniqueness. -/
theorem updAll_keys_nodup : ∀ (m l : List (String × α)),
    (l.map Prod.fst).Nodup → ((updAll l m).map Prod.fst).Nodup := by
  intro m
  induction m with
  | nil => intro l h; exact h
  | cons a m ih =>
    intro l h
    exact ih (updKey l a.1 a.2) (updKey_keys_nodup h a.1 a.2)

/-- The merged per-request spec table has unique keys. -/
theorem mergedSpec_keys_nodup (v : VState) (r : ResInfo) :
    ((mergedSpec v r).map Prod.fst).Nodup := by
  unfold mergedSpec
  apply updAll_keys_nodup
  split
  · apply updAll_keys_nodup
    apply updAll_keys_nodup
    simp
  · apply updAll_keys_nodup
    simp

/-- The failed-field list only depends on the lookups of the spec's own
keys. -/
theorem failedFields_congr {spec : List (String × SpecVal)}
    {w w' : List (String × Val)}
    (h : ∀ p ∈ spec, lookupField w' p.1 = lookupField w p.1) :
    failedFields spec w' = failedFields spec w := by
  unfold failedFields
  congr 1
  apply List.filter_congr
  intro p hp
  unfold fieldFails
  rw [h p hp]

/-- Characterization of the conversion loop: with unique spec keys and
well-formed stored specs it never raises, and it accumulates exactly the
failed fields (in spec order) after the incoming error accumulator. -/
theorem convertFields_characterize : ∀ (spec : List (String × SpecVal)),
    ∀ (w : List (String × Val)) (errs : List String),
    (spec.map Prod.fst).Nodup →
    (∀ p ∈ spec, specNeverInvalid p.2 = true) →
    ∃ d, convertFields spec w errs = .ok (d, errs ++ failedFields spec w) := by
  intro spec
  induction spec with
  | nil =>
    intro w errs _ _
    exact ⟨w, by simp [convertFields, failedFields]⟩
  | cons p rest ih =>
    obtain ⟨f, s⟩ := p
    intro w errs hnd hwf
    rw [List.map_cons] at hnd
    have hnd0 := List.nodup_cons.mp hnd
    have hwf0 : specNeverInvalid s = true := hwf (f, s) (List.mem_cons_self _ _)
    have hwf' : ∀ p ∈ rest, specNeverInvalid p.2 = true :=
      fun p hp => hwf p (List.mem_cons_of_mem _ hp)
    cases hl : lookupField w f with
    | none =>
      have hff : fieldFails w (f, s) = false := by simp [fieldFails, hl]
      obtain ⟨d, hd⟩ := ih w errs hnd0.2 hwf'
      refine ⟨d, ?_⟩
      simp only [convertFields, hl]
      rw [hd]
      simp [failedFields, List.filter_cons, hff]
    | some xv =>
      cases hc : checkVal s xv with
      | ok cv =>
        have hff : fieldFails w (f, s) = false := by simp [fieldFails, hl, hc]
        obtain ⟨d, hd⟩ := ih (updKey w f cv) errs hnd0.2 hwf'
        refine ⟨d, ?_⟩
        simp only [convertFields, hl, hc]
        rw [hd]
        have hcong : failedFields rest (updKey w f cv) = failedFields rest w := by
          apply failedFields_congr
          intro q hq
          apply lookupField_updKey_ne
          intro he
          exact hnd0.1 (he ▸ List.mem_map.mpr ⟨q, hq, rfl⟩)
        rw [hcong]
        simp [failedFields, List.filter_cons, hff]
      | error e =>
        cases e with
        | invalidSpec => exact absurd hc (checkVal_ne_invalid s hwf0 xv)
        | fieldFail =>
          have hff : fieldFails w (f, s) = true := by simp [fieldFails, hl, hc]
          obtain ⟨d, hd⟩ := ih w (errs ++ [f]) hnd0.2 hwf'
          refine ⟨d, ?_⟩
          simp only [convertFields, hl, hc]
          rw [hd]
          simp [failedFields, List.filter_cons, hff]

/-- C9: once restriction enforcement passes and the merged spec holds
only well-formed stored specs, the conversion phase attempts every
spec-covered field present in the input even after individual failures:
when at least one field fails, exactly one invalid-fields failure is
raised naming every failed field (in spec order); with no failed field,
validation succeeds; and every named failed field is present in the input
(a field absent from the input is skipped, never a failure). -/
theorem c9_aggregate_failures (v : VState) (r : ResInfo)
    (data w : List (String × Val))
    (h1 : handleRestrictions v r data = .ok w)
    (h2 : (mergedSpec v r).all (fun p => specNeverInvalid p.2) = true) :
    (failedFields (mergedSpec v r) w ≠ [] →
      validate v r data =
        .error (.invalidFields (failedFields (mergedSpec v r) w)))
    ∧ (failedFields (mergedSpec v r) w = [] →
      isOkE (validate v r data) = true)
    ∧ (failedFields (mergedSpec v r) w).all
        (fun f => (lookupField w f).isSome) = true := by
  have h2' : ∀ p ∈ mergedSpec v r, specNeverInvalid p.2 = true := by
    intro p hp
    exact List.all_eq_true.mp h2 p hp
  obtain ⟨d, hd⟩ := convertFields_characterize (mergedSpec v r) w []
    (mergedSpec_keys_nodup v r) h2'
  have hval : validate v r data =
      (if failedFields (mergedSpec v r) w ≠ [] then
        Except.error (VErr.invalidFields (failedFields (mergedSpec v r) w))
      else .ok d) := by
    unfold validate
    rw [h1]
    change (match convertFields (mergedSpec v r) w [] with
      | Except.error e => Except.error e
      | Except.ok (d2, errs) =>
        if errs ≠ [] then Except.error (VErr.invalidFields errs)
        else Except.ok d2) = _
    rw [hd]
    change (if [] ++ failedFields (mergedSpec v r) w ≠ [] then
        Except.error (VErr.invalidFields ([] ++ failedFields (mergedSpec v r) w))
      else Except.ok d) = _
    simp
  refine ⟨?_, ?_, ?_⟩
  · intro hne
    rw [hval, if_pos hne]
  · intro he
    rw [hval, if_neg (by simp [he])]
    rfl
  · rw [List.all_eq_true]
    intro f hf
    simp only [failedFields, List.mem_map] at hf
    obtain ⟨p, hp, hpf⟩ := hf
    have hfail := (List.mem_filter.mp hp).2
    unfold fieldFails at hfail
    cases hl : lookupField w p.1 with
    | none => rw [hl] at hfail; exact absurd hfail (by simp)
    | some xv =>
      subst hpf
      rw [hl]
      rfl

/-- C9 (witness): two fields `x` and `y` both failing integer conversion
in the same request: the single invalid-fields failure names both. -/
theorem c9_witness :
    handleRestrictions vC9 rC9 dataC9 = .ok dataC9
    ∧ (mergedSpec vC9 rC9).all (fun p => specNeverInvalid p.2) = true
    ∧ validate vC9 rC9 dataC9 = .error (.invalidFields ["x", "y"]) := by
  refine ⟨rfl, rfl, ?_⟩
  exact (c9_aggregate_failures vC9 rC9 dataC9 dataC9 rfl rfl).1 (by decide)

end Findig
